import Mathlib

/-
Verification development for the relaxed-reachability engine of a classical
planner: the landmark relaxation analysis (landmark_factory_relaxation.cc)
and the FF heuristic with optional learned per-action-family weights
(ff_heuristic.cc).  Shallow embedding: grounded facts, operators, axioms
and landmarks become Lean structures; the relaxed exploration engine (whose
C++ source, exploration.cc, is not part of the verified sources) is
modelled from the design specification.
-/

namespace Downward

/-- Grounded fact: a (variable id, value) pair, mirroring FactPair. -/
structure FactPair where
  var : Nat
  value : Nat
deriving DecidableEq, Repr

/-- One effect of a grounded operator: a (possibly empty) condition set of
facts and a single resulting fact, mirroring EffectProxy. -/
structure Effect where
  conditions : List FactPair
  fact : FactPair
deriving DecidableEq, Repr

/-- Grounded operator: name, precondition facts, conditional effects and a
non-negative integer cost, mirroring OperatorProxy. -/
structure Operator where
  name : String
  preconditions : List FactPair
  effects : List Effect
  cost : Nat
deriving DecidableEq, Repr

/-- Grounded axiom: derives a single fact from a body of condition facts.
Axioms carry no real operator id. -/
structure AxiomRule where
  conditions : List FactPair
  fact : FactPair
deriving DecidableEq, Repr

/-- Planning task: initial state (the set of facts true initially), goal
facts, grounded operators and axioms. -/
structure Task where
  initial : List FactPair
  goals : List FactPair
  operators : List Operator
  axioms : List AxiomRule
deriving DecidableEq, Repr

/-- Default operator used for out-of-range list reads (C++ indexing is
assumed in-range; theorems carry the range hypotheses). -/
def defaultOperator : Operator := ⟨"", [], [], 0⟩

/-- Unary rule compiled from one (operator, effect) pair or one axiom:
owner is the operator index (none for an axiom), preconditions are the
operator preconditions together with the effect conditions.  Modelled from
the spec section on Unary-Operator Compilation. -/
structure Rule where
  owner : Option Nat
  preconds : List FactPair
  head : FactPair
deriving DecidableEq, Repr

/-- Modelled from the spec: compile each (operator, effect) pair and each
axiom into a unary rule; axioms get the "not a real action" owner. -/
def taskRules (t : Task) : List Rule :=
  ((List.range t.operators.length).flatMap fun i =>
    (t.operators.getD i defaultOperator).effects.map fun e =>
      ⟨some i, (t.operators.getD i defaultOperator).preconditions ++ e.conditions, e.fact⟩)
  ++ t.axioms.map fun a => ⟨none, a.conditions, a.fact⟩

/-- Modelled from the spec: a rule is disabled exactly when its owning
operator id is in the excluded-action set; axiom rules have no owning
operator and are never disabled. -/
def ruleExcluded (excludeOpIds : List Nat) (r : Rule) : Bool :=
  match r.owner with
  | some i => excludeOpIds.contains i
  | none => false

/-- Modelled from the spec: one stage of the relaxed-reachability fixpoint.
A non-excluded rule whose preconditions are all reached fires and adds its
head, unless the head is an excluded fact or already reached. -/
def reachStep (rules : List Rule) (excludeProps : List FactPair)
    (excludeOpIds : List Nat) (reached : List FactPair) : List FactPair :=
  reached ++
    ((rules.filter fun r =>
      decide (ruleExcluded excludeOpIds r = false ∧
        (∀ p ∈ r.preconds, p ∈ reached) ∧
        r.head ∉ excludeProps ∧ r.head ∉ reached)).map Rule.head)

/-- Modelled from the spec (compute_reachability_with_excludes; the
exploration engine source is not under the verified sources): facts reached
after n fixpoint stages, seeded with the initial state minus the excluded
facts, which the engine treats as permanently false. -/
def reachedAfter (t : Task) (excludeProps : List FactPair)
    (excludeOpIds : List Nat) : Nat → List FactPair
  | 0 => t.initial.filter fun f => decide (f ∉ excludeProps)
  | n + 1 => reachStep (taskRules t) excludeProps excludeOpIds
      (reachedAfter t excludeProps excludeOpIds n)

/-- Modelled from the spec: every productive stage adds the head of at
least one rule, so (number of rules) stages reach the fixpoint. -/
def explorationBound (t : Task) : Nat := (taskRules t).length

/-- Modelled from the spec: the level of a fact is the first fixpoint stage
at which it is reached; none models the numeric_limits-max sentinel of an
unreachable fact.  Only finiteness of levels is consumed by the landmark
analyses verified here. -/
def factLevel (t : Task) (excludeProps : List FactPair)
    (excludeOpIds : List Nat) (f : FactPair) : Option Nat :=
  (List.range (explorationBound t + 1)).find? fun n =>
    decide (f ∈ reachedAfter t excludeProps excludeOpIds n)

/-- Landmark: a fact set (singleton for a simple landmark, several facts
for a disjunctive one) and its status flags, mirroring the Landmark class
fields used by the relaxation factory. -/
structure Landmark where
  facts : List FactPair
  conjunctive : Bool
  is_true_in_goal : Bool
deriving DecidableEq, Repr

/-- Modelled from the spec (landmark_factory.cc is not under the verified
sources): an operator has the landmark as a precondition when some
precondition of the operator is one of the landmark facts. -/
def is_landmark_precondition (op : Operator) (landmark : Landmark) : Bool :=
  op.preconditions.any fun pre => landmark.facts.contains pre

/-- Excluded-action set of the causal-necessity test: ids of the operators
having some landmark fact among their preconditions (is_causal_landmark,
lines 66-72). -/
def causalExcludeOpIds (t : Task) (landmark : Landmark) : List Nat :=
  (List.range t.operators.length).filter fun i =>
    is_landmark_precondition (t.operators.getD i defaultOperator) landmark

/-- Embedding of LandmarkFactoryRelaxation::is_causal_landmark: a landmark
true in the goal is causal; otherwise run the relaxed exploration with an
empty excluded-fact set and with every operator preconditioned on a
landmark fact excluded, and report causal exactly when some goal fact
stays at the unreachable sentinel. -/
def is_causal_landmark (t : Task) (landmark : Landmark) : Bool :=
  if landmark.is_true_in_goal then true
  else
    let exclude_props : List FactPair := []
    let exclude_op_ids := causalExcludeOpIds t landmark
    t.goals.any fun goal =>
      (factLevel t exclude_props exclude_op_ids goal).isNone

/-- Causal test as the claim words it, for comparison with the embedded
code: identical except that the excluded-fact set is the landmark's own
fact set. -/
def is_causal_landmark_claimed (t : Task) (landmark : Landmark) : Bool :=
  if landmark.is_true_in_goal then true
  else
    let exclude_props : List FactPair := landmark.facts
    let exclude_op_ids := causalExcludeOpIds t landmark
    t.goals.any fun goal =>
      (factLevel t exclude_props exclude_op_ids goal).isNone

/-- Embedding of LandmarkFactoryRelaxation::achieves_non_conditional: the
operator has an effect whose fact equals one of the landmark facts and
whose condition set is empty. -/
def achieves_non_conditional (o : Operator) (landmark : Landmark) : Bool :=
  o.effects.any fun effect =>
    landmark.facts.any fun lm_fact =>
      decide (effect.fact = lm_fact) && effect.conditions.isEmpty

/-- Excluded-action set of the solvability / achiever test: ids of the
operators unconditionally achieving some landmark fact
(relaxed_task_solvable, lines 142-145). -/
def solvableExcludeOpIds (t : Task) (exclude : Landmark) : List Nat :=
  (List.range t.operators.length).filter fun i =>
    achieves_non_conditional (t.operators.getD i defaultOperator) exclude

/-- Embedding of LandmarkFactoryRelaxation::relaxed_task_solvable: exclude
the landmark's facts and every operator unconditionally achieving one of
them, run the relaxed exploration, and succeed exactly when every goal
fact gets a level below the unreachable sentinel. -/
def relaxed_task_solvable (t : Task) (exclude : Landmark) : Bool :=
  let exclude_op_ids := solvableExcludeOpIds t exclude
  let exclude_props : List FactPair := exclude.facts
  t.goals.all fun goal =>
    (factLevel t exclude_props exclude_op_ids goal).isSome

/-- Landmark graph node: a stable id and its landmark. -/
structure LandmarkNode where
  id : Nat
  landmark : Landmark
deriving DecidableEq, Repr

/-- Landmark graph: nodes and directed ordering edges between node ids. -/
structure LandmarkGraph where
  nodes : List LandmarkNode
  edges : List (Nat × Nat)
deriving DecidableEq, Repr

/-- Modelled from the spec (LandmarkGraph::remove_node_if is not under the
verified sources): remove every node satisfying the predicate together
with all ordering edges incident to a removed node. -/
def remove_node_if (g : LandmarkGraph) (p : Landmark → Bool) : LandmarkGraph :=
  let keptNodes := g.nodes.filter fun n => ! p n.landmark
  { nodes := keptNodes,
    edges := g.edges.filter fun e =>
      decide ((∃ n ∈ keptNodes, n.id = e.1) ∧ (∃ n ∈ keptNodes, n.id = e.2)) }

/-- Embedding of LandmarkFactoryRelaxation::discard_noncausal_landmarks:
remove every node whose landmark fails the causal test and report the
number of discarded landmarks (num_all_landmarks - num_causal_landmarks). -/
def discard_noncausal_landmarks (t : Task) (g : LandmarkGraph) :
    LandmarkGraph × Nat :=
  let g2 := remove_node_if g fun landmark => ! is_causal_landmark t landmark
  (g2, g.nodes.length - g2.nodes.length)

/-- Unary operator of the relaxation heuristic: owning real-operator index
(none models the axiom sentinel operator_no == -1) and the precondition
facts of the compiled rule.  Propositions are identified with their facts
in this embedding.  Modelled from the spec section on Unary-Operator
Compilation (relaxation_heuristic.cc is not under the verified sources). -/
structure UnaryOperator where
  operator_no : Option Nat
  preconditions : List FactPair
deriving DecidableEq, Repr

/-- Default unary operator for out-of-range reads. -/
def defaultUnaryOperator : UnaryOperator := ⟨none, []⟩

/-- Evaluation context of one FF-heuristic computation: the proposition
table, the compiled unary operators, the per-proposition exploration
output (reached_by link and cost, both association lists defaulting to
the "no operator" and "unreached" sentinels), the goal propositions and
the real task operators.  The exploration output fields model the state
left by the relaxed exploration seeded with the evaluated state. -/
structure FFContext where
  props : List FactPair
  unary_operators : List UnaryOperator
  reached_by : List (FactPair × Option Nat)
  prop_cost : List (FactPair × Option Nat)
  goal_propositions : List FactPair
  operators : List Operator
deriving DecidableEq, Repr

/-- Reached-by link of a proposition; none models the NO_OP sentinel. -/
def reachedByOf (ctx : FFContext) (f : FactPair) : Option Nat :=
  ((ctx.reached_by.find? fun pr => decide (pr.1 = f)).map Prod.snd).getD none

/-- Relaxed cost of a proposition; none models the unreached sentinel. -/
def costOf (ctx : FFContext) (f : FactPair) : Option Nat :=
  ((ctx.prop_cost.find? fun pr => decide (pr.1 = f)).map Prod.snd).getD none

/-- A proposition is reached when its relaxed cost is finite. -/
def isReached (ctx : FFContext) (f : FactPair) : Prop :=
  (costOf ctx f).isSome = true

instance (ctx : FFContext) (f : FactPair) : Decidable (isReached ctx f) := by
  unfold isReached; infer_instance

/-- Mutable per-evaluation state of the FF heuristic: the marked flags of
the backward chaining (as the set of marked propositions), the
relaxed-plan membership array indexed by real-operator number, and the
collected preferred-operator ids. -/
structure MarkState where
  marked : List FactPair
  relaxed_plan : List Bool
  preferred : List Nat
deriving DecidableEq, Repr

/-- Number of propositions of the table not yet marked; the measure that
shrinks whenever the backward chaining marks a new proposition. -/
def unmarkedCount (ctx : FFContext) (s : MarkState) : Nat :=
  (ctx.props.filter fun p => decide (p ∉ s.marked)).length

/-- The precondition loop of mark_preferred_operators_and_relaxed_plan,
generic in the recursive call: chain through each precondition and clear
the is_preferred accumulator when a precondition was reached by an
achieving operator. -/
def markPrecondLoop (recCall : MarkState → FactPair → Option MarkState)
    (reachedByLink : FactPair → Option Nat) :
    MarkState → Bool → List FactPair → Option (MarkState × Bool)
  | s, is_preferred, [] => some (s, is_preferred)
  | s, is_preferred, precond :: rest =>
    match recCall s precond with
    | none => none
    | some s2 =>
      markPrecondLoop recCall reachedByLink s2
        (is_preferred && (reachedByLink precond).isNone) rest

/-- Embedding of FFHeuristic::mark_preferred_operators_and_relaxed_plan
with explicit fuel (the C++ recursion terminates because the marked flag
is set on first visit; the fuel-sufficiency theorem makes that argument
explicit).  A marked goal is skipped; otherwise it is marked, and if it
was reached by a unary operator the preconditions are chained through
first, the operator is recorded in the relaxed plan when it is a real
operator, and it is recorded preferred when no precondition needed an
achieving operator. -/
def mark_preferred_operators_and_relaxed_plan (ctx : FFContext)
    (state : List FactPair) : Nat → MarkState → FactPair → Option MarkState
  | 0, _, _ => none
  | fuel + 1, s, goal_id =>
    if decide (goal_id ∈ s.marked) then some s
    else
      let s1 : MarkState := { s with marked := goal_id :: s.marked }
      match reachedByOf ctx goal_id with
      | none => some s1
      | some op_id =>
        let unary_op := ctx.unary_operators.getD op_id defaultUnaryOperator
        match markPrecondLoop
            (mark_preferred_operators_and_relaxed_plan ctx state fuel)
            (reachedByOf ctx) s1 true unary_op.preconditions with
        | none => none
        | some (s2, is_preferred) =>
          match unary_op.operator_no with
          | none => some s2
          | some operator_no =>
            some { s2 with
              relaxed_plan := s2.relaxed_plan.set operator_no true,
              preferred :=
                if is_preferred then s2.preferred ++ [operator_no]
                else s2.preferred }

/-- The goal loop of FFHeuristic::compute_heuristic: chain backward from
every goal proposition.  The fuel passed to each call exceeds the size of
the proposition table, which the fuel-sufficiency theorem shows is always
enough. -/
def markGoals (ctx : FFContext) (state : List FactPair) :
    MarkState → List FactPair → Option MarkState
  | s, [] => some s
  | s, g :: gs =>
    match mark_preferred_operators_and_relaxed_plan ctx state
        (ctx.props.length + 1) s g with
    | none => none
    | some s2 => markGoals ctx state s2 gs

/-- Modelled from the spec: AdditiveHeuristic::compute_add_and_ff (not
under the verified sources) runs the exploration with no exclusions and
returns the dead-end sentinel exactly when some goal proposition is
unreachable, and otherwise the additive estimate; the sentinel is
modelled as none, distinguishable from every finite estimate. -/
def compute_add_and_ff (ctx : FFContext) : Option Nat :=
  if ∀ g ∈ ctx.goal_propositions, isReached ctx g then
    some (ctx.goal_propositions.map fun g => (costOf ctx g).getD 0).sum
  else none

/-- FF heuristic configuration: the learned-weight toggle and the learned
weight table keyed by action-family name (the C++ unordered_map from
string to double, doubles modelled as rationals). -/
structure FFHeuristic where
  use_learned_weights : Bool
  op_weights : List (String × ℚ)
deriving DecidableEq, Repr

/-- Lookup in the learned-weight table.  The C++ code reads
op_weights[op_type] on a std::unordered_map, which default-inserts the
value 0.0 when the key is missing; the default is therefore 0. -/
def opWeightLookup (w : List (String × ℚ)) (key : String) : ℚ :=
  match w.find? fun pr => decide (pr.1 = key) with
  | some pr => pr.2
  | none => 0

/-- Action-family key of an operator name: the name up to the first space,
mirroring name.substr(0, name.find(" ")); computed over the character
list. -/
def opFamilyKey (name : String) : String :=
  ⟨name.data.takeWhile fun c => decide (c ≠ ' ')⟩

/-- Operator numbers flagged in the relaxed-plan membership array; the
iteration order of the C++ summation loop. -/
def collectedPlan (s : MarkState) : List Nat :=
  (List.range s.relaxed_plan.length).filter fun op_no =>
    s.relaxed_plan.getD op_no false

/-- Accumulated h_ff of the summation loop: the sum of the costs of the
flagged relaxed-plan operators. -/
def relaxedPlanCostSum (ctx : FFContext) (s : MarkState) : Nat :=
  ((collectedPlan s).map fun op_no =>
    (ctx.operators.getD op_no defaultOperator).cost).sum

/-- Accumulated adj_h_ff of the summation loop: the sum, over the flagged
relaxed-plan operators, of the learned weight of the operator's
action-family key. -/
def relaxedPlanWeightSum (h : FFHeuristic) (ctx : FFContext) (s : MarkState) : ℚ :=
  ((collectedPlan s).map fun op_no =>
    opWeightLookup h.op_weights
      (opFamilyKey (ctx.operators.getD op_no defaultOperator).name)).sum

/-- Embedding of FFHeuristic::compute_heuristic: on a dead-end the
sentinel is returned at once; otherwise the goals are chained backward,
and the summation loop adds each flagged operator's cost to h_ff and its
family weight to adj_h_ff while clearing the flag.  In learned-weight
mode the ceiling of adj_h_ff is returned, otherwise h_ff.  The outer
Option is the fuel guard of the embedding (none never occurs on
well-formed contexts). -/
def compute_heuristic (h : FFHeuristic) (ctx : FFContext)
    (state : List FactPair) (s0 : MarkState) :
    Option (Option Int × MarkState) :=
  match compute_add_and_ff ctx with
  | none => some (none, s0)
  | some _ =>
    match markGoals ctx state s0 ctx.goal_propositions with
    | none => none
    | some s =>
      let h_ff : Nat := relaxedPlanCostSum ctx s
      let adj_h_ff : ℚ := relaxedPlanWeightSum h ctx s
      let s2 : MarkState :=
        { s with relaxed_plan := List.replicate s.relaxed_plan.length false }
      some
        (some (if h.use_learned_weights then Int.ceil adj_h_ff else (h_ff : Int)),
         s2)

/-- Modelled from the spec: task_properties::is_applicable (not under the
verified sources) — the operator's preconditions all hold in the literal
state. -/
def opApplicable (op : Operator) (state : List FactPair) : Prop :=
  ∀ f ∈ op.preconditions, f ∈ state

/-- Closure hypothesis of the proposition table: every precondition of
every compiled unary operator is a tabled proposition. -/
def PrecondsClosed (ctx : FFContext) : Prop :=
  ∀ uo ∈ ctx.unary_operators, ∀ p ∈ uo.preconditions, p ∈ ctx.props

instance (ctx : FFContext) : Decidable (PrecondsClosed ctx) := by
  unfold PrecondsClosed; infer_instance

/-- The preferred operators collected so far are all applicable in the
evaluated state. -/
def PreferredOK (ctx : FFContext) (state : List FactPair) (s : MarkState) :
    Prop :=
  ∀ i ∈ s.preferred, opApplicable (ctx.operators.getD i defaultOperator) state

/-- Modelled from the spec: the invariants that the relaxed-exploration
output and the unary-operator compilation establish (their sources,
relaxation_heuristic.cc and additive_heuristic.cc, are not under the
verified sources).  A reached proposition with the NO_OP link was true in
the seed state; a reached proposition reached by a rule has the rule's id
in range and the rule's preconditions all reached; and a compiled unary
operator of a real operator carries all that operator's preconditions. -/
structure EvalInvariants (ctx : FFContext) (state : List FactPair) : Prop where
  goals_in_props : ∀ g ∈ ctx.goal_propositions, g ∈ ctx.props
  preconds_in_props : PrecondsClosed ctx
  reached_none_in_state : ∀ f ∈ ctx.props, isReached ctx f →
    reachedByOf ctx f = none → f ∈ state
  reached_by_valid : ∀ f ∈ ctx.props, isReached ctx f →
    ∀ o ∈ reachedByOf ctx f, o < ctx.unary_operators.length ∧
      ∀ p ∈ (ctx.unary_operators.getD o defaultUnaryOperator).preconditions,
        isReached ctx p
  compiled_preconds : ∀ uo ∈ ctx.unary_operators, ∀ i ∈ uo.operator_no,
    ∀ f ∈ (ctx.operators.getD i defaultOperator).preconditions,
      f ∈ uo.preconditions

/-- Context with every operator's cost replaced, names and everything else
kept. -/
def withCosts (ctx : FFContext) (c : Nat → Nat) : FFContext :=
  { ctx with operators := (List.range ctx.operators.length).map fun i =>
      { ctx.operators.getD i defaultOperator with cost := c i } }

/-- Example task: fact F = (0,1) is achievable by the only operator, an
axiom derives the goal fact G = (1,1) from F, and no operator is
preconditioned on F. -/
def exTask : Task :=
  ⟨[⟨0, 0⟩, ⟨1, 0⟩], [⟨1, 1⟩],
   [⟨"achieveF", [], [⟨[], ⟨0, 1⟩⟩], 1⟩],
   [⟨[⟨0, 1⟩], ⟨1, 1⟩⟩]⟩

/-- Example landmark: the single non-goal fact F = (0,1). -/
def exLandmark : Landmark := ⟨[⟨0, 1⟩], false, false⟩

/-- Example landmark over the goal fact G = (1,1), true in the goal. -/
def exGoalLandmark : Landmark := ⟨[⟨1, 1⟩], false, true⟩

/-- Example landmark graph: one causal (goal) node, one non-causal node
and one ordering edge between them. -/
def exGraph : LandmarkGraph :=
  ⟨[⟨0, exGoalLandmark⟩, ⟨1, exLandmark⟩], [(1, 0)]⟩

/-- Example FF evaluation context: two goal propositions, each reached by
its own unary operator compiled from a distinct operator family. -/
def exCtx : FFContext :=
  ⟨[⟨0, 1⟩, ⟨1, 1⟩],
   [⟨some 0, []⟩, ⟨some 1, []⟩],
   [(⟨0, 1⟩, some 0), (⟨1, 1⟩, some 1)],
   [(⟨0, 1⟩, some 1), (⟨1, 1⟩, some 1)],
   [⟨0, 1⟩, ⟨1, 1⟩],
   [⟨"pick-up a", [], [], 1⟩, ⟨"put-down a", [], [], 1⟩]⟩

/-- Learned-weight configuration of the example: family pick-up weighs
3/2 = 1.5 and family put-down weighs 9/4 = 2.25. -/
def exWeights : FFHeuristic := ⟨true, [("pick-up", 3 / 2), ("put-down", 9 / 4)]⟩

/-- Empty mark state sized for the two operators of the example. -/
def exState0 : MarkState := ⟨[], [false, false], []⟩

/-- Evaluation context where the goal is reached by an operator with a
precondition true in the evaluated state. -/
def exCtxPre : FFContext :=
  ⟨[⟨0, 0⟩, ⟨0, 1⟩],
   [⟨some 0, [⟨0, 0⟩]⟩],
   [(⟨0, 0⟩, none), (⟨0, 1⟩, some 0)],
   [(⟨0, 0⟩, some 0), (⟨0, 1⟩, some 1)],
   [⟨0, 1⟩],
   [⟨"pick-up a", [⟨0, 0⟩], [], 1⟩]⟩

/-- Mark state sized for the single operator of exCtxPre. -/
def exState0Pre : MarkState := ⟨[], [false], []⟩

/-- Evaluation context whose first-achiever links form a cycle between its
two propositions, as can arise from axiom interdependencies. -/
def exCtxCycle : FFContext :=
  ⟨[⟨0, 0⟩, ⟨0, 1⟩],
   [⟨none, [⟨0, 1⟩]⟩, ⟨none, [⟨0, 0⟩]⟩],
   [(⟨0, 0⟩, some 0), (⟨0, 1⟩, some 1)],
   [(⟨0, 0⟩, some 0), (⟨0, 1⟩, some 0)],
   [⟨0, 0⟩],
   []⟩

/-- Context whose single relaxed-plan operator belongs to family "drive",
missing from the weight table exWeightsNoDrive. -/
def exCtxDrive : FFContext :=
  ⟨[⟨0, 1⟩], [⟨some 0, []⟩], [(⟨0, 1⟩, some 0)], [(⟨0, 1⟩, some 1)],
   [⟨0, 1⟩], [⟨"drive a b", [], [], 3⟩]⟩

/-- Learned-weight configuration missing the "drive" family. -/
def exWeightsNoDrive : FFHeuristic := ⟨true, [("load", 5)]⟩

/-- Mark state sized for the single operator of exCtxDrive. -/
def exState0Drive : MarkState := ⟨[], [false], []⟩

/-- Context with an unreachable goal proposition. -/
def exCtxDead : FFContext :=
  ⟨[⟨0, 1⟩], [], [], [(⟨0, 1⟩, none)], [⟨0, 1⟩], []⟩

section MarkLemmas

lemma length_filter_mono {α : Type} (l : List α) (p q : α → Bool)
    (h : ∀ a ∈ l, q a = true → p a = true) :
    (l.filter q).length ≤ (l.filter p).length := by
  induction l with
  | nil => simp
  | cons b t ih =>
    have ht : ∀ a ∈ t, q a = true → p a = true := fun a ha hqa =>
      h a (List.mem_cons_of_mem b ha) hqa
    rcases hq : q b with _ | _
    · rcases hp : p b with _ | _
      · rw [List.filter_cons, List.filter_cons, hq, hp]
        simpa using ih ht
      · rw [List.filter_cons, List.filter_cons, hq, hp]
        simpa using Nat.le_succ_of_le (ih ht)
    · have hp : p b = true := h b (List.mem_cons_self b t) hq
      rw [List.filter_cons, List.filter_cons, hq, hp]
      simpa using ih ht

lemma length_filter_lt {α : Type} (l : List α) (p q : α → Bool)
    (h : ∀ a ∈ l, q a = true → p a = true)
    (a : α) (ha : a ∈ l) (hqa : q a = false) (hpa : p a = true) :
    (l.filter q).length < (l.filter p).length := by
  induction l with
  | nil => cases ha
  | cons b t ih =>
    have ht : ∀ x ∈ t, q x = true → p x = true := fun x hx hqx =>
      h x (List.mem_cons_of_mem b hx) hqx
    by_cases hb : b = a
    · subst hb
      rw [List.filter_cons, List.filter_cons, hqa, hpa]
      simpa using Nat.lt_succ_of_le (length_filter_mono t p q ht)
    · have hat : a ∈ t := by
        rcases List.mem_cons.mp ha with h1 | h1
        · exact absurd h1.symm hb
        · exact h1
      rcases hq : q b with _ | _
      · rcases hp : p b with _ | _
        · rw [List.filter_cons, List.filter_cons, hq, hp]
          simpa using ih ht hat
        · rw [List.filter_cons, List.filter_cons, hq, hp]
          simpa using Nat.lt_succ_of_lt (ih ht hat)
      · have hp : p b = true := h b (List.mem_cons_self b t) hq
        rw [List.filter_cons, List.filter_cons, hq, hp]
        simpa using ih ht hat

lemma unmarkedCount_le_of_marked_mono (ctx : FFContext) (s s' : MarkState)
    (h : ∀ x, x ∈ s.marked → x ∈ s'.marked) :
    unmarkedCount ctx s' ≤ unmarkedCount ctx s := by
  apply length_filter_mono
  intro a _ hq
  simp only [decide_eq_true_eq] at hq ⊢
  intro hmem
  exact hq (h a hmem)

lemma unmarkedCount_cons_lt (ctx : FFContext) (s : MarkState) (g : FactPair)
    (hg : g ∈ ctx.props) (hm : g ∉ s.marked) :
    unmarkedCount ctx { s with marked := g :: s.marked } < unmarkedCount ctx s := by
  refine length_filter_lt ctx.props _ _ ?_ g hg ?_ ?_
  · intro a _ hq
    simp only [decide_eq_true_eq] at hq ⊢
    intro hmem
    exact hq (List.mem_cons_of_mem g hmem)
  · simp
  · simpa using hm

lemma markPrecondLoop_marked_mono
    (recCall : MarkState → FactPair → Option MarkState)
    (rb : FactPair → Option Nat)
    (hrec : ∀ s p s', recCall s p = some s' → ∀ x, x ∈ s.marked → x ∈ s'.marked) :
    ∀ l s pref out, markPrecondLoop recCall rb s pref l = some out →
      ∀ x, x ∈ s.marked → x ∈ out.1.marked := by
  intro l
  induction l with
  | nil =>
    intro s pref out h x hx
    simp only [markPrecondLoop] at h
    cases h
    exact hx
  | cons p rest ih =>
    intro s pref out h x hx
    simp only [markPrecondLoop] at h
    cases hrc : recCall s p with
    | none => rw [hrc] at h; cases h
    | some s2 =>
      rw [hrc] at h
      exact ih s2 _ out h x (hrec s p s2 hrc x hx)

lemma mark_marked_mono (ctx : FFContext) (state : List FactPair) :
    ∀ fuel s g s',
      mark_preferred_operators_and_relaxed_plan ctx state fuel s g = some s' →
      ∀ x, x ∈ s.marked → x ∈ s'.marked := by
  intro fuel
  induction fuel with
  | zero =>
    intro s g s' h
    simp [mark_preferred_operators_and_relaxed_plan] at h
  | succ fuel ih =>
    intro s g s' h x hx
    rw [mark_preferred_operators_and_relaxed_plan] at h
    dsimp only at h
    have hx1 : x ∈ ({ s with marked := g :: s.marked } : MarkState).marked :=
      List.mem_cons_of_mem g hx
    split at h
    · cases h; exact hx
    · split at h
      · cases h; exact hx1
      · split at h
        · cases h
        · rename_i s2 is_pref hloop
          have hx2 : x ∈ (s2, is_pref).1.marked :=
            markPrecondLoop_marked_mono _ _ (fun s p s' hs => ih s p s' hs)
              _ _ _ _ hloop x hx1
          split at h
          · cases h; exact hx2
          · cases h; exact hx2

lemma mark_unmarkedCount_le (ctx : FFContext) (state : List FactPair)
    (fuel : Nat) (s : MarkState) (g : FactPair) (s' : MarkState)
    (h : mark_preferred_operators_and_relaxed_plan ctx state fuel s g = some s') :
    unmarkedCount ctx s' ≤ unmarkedCount ctx s :=
  unmarkedCount_le_of_marked_mono ctx s s'
    (mark_marked_mono ctx state fuel s g s' h)

lemma getD_mem_of_lt {α : Type} (l : List α) (d : α) (i : Nat)
    (h : i < l.length) : l.getD i d ∈ l := by
  rw [List.getD_eq_getElem?_getD, List.getElem?_eq_getElem h]
  exact List.getElem_mem h

lemma getD_preconds_in_props (ctx : FFContext) (hc : PrecondsClosed ctx)
    (i : Nat) :
    ∀ p ∈ (ctx.unary_operators.getD i defaultUnaryOperator).preconditions,
      p ∈ ctx.props := by
  by_cases hi : i < ctx.unary_operators.length
  · exact hc _ (getD_mem_of_lt _ _ _ hi)
  · intro p hp
    rw [List.getD_eq_getElem?_getD, List.getElem?_eq_none (Nat.le_of_not_lt hi)] at hp
    cases hp

lemma markPrecondLoop_isSome (ctx : FFContext) (N : Nat)
    (recCall : MarkState → FactPair → Option MarkState)
    (rb : FactPair → Option Nat)
    (hcount : ∀ s p s', recCall s p = some s' →
      unmarkedCount ctx s' ≤ unmarkedCount ctx s)
    (hsome : ∀ s p, p ∈ ctx.props → unmarkedCount ctx s < N →
      (recCall s p).isSome = true) :
    ∀ l, (∀ p ∈ l, p ∈ ctx.props) → ∀ s pref, unmarkedCount ctx s < N →
      (markPrecondLoop recCall rb s pref l).isSome = true := by
  intro l
  induction l with
  | nil =>
    intro _ s pref _
    simp [markPrecondLoop]
  | cons p rest ih =>
    intro hl s pref hs
    have h1 := hsome s p (hl p (List.mem_cons_self p rest)) hs
    cases hrc : recCall s p with
    | none => rw [hrc] at h1; cases h1
    | some s2 =>
      have hs2 : unmarkedCount ctx s2 < N :=
        Nat.lt_of_le_of_lt (hcount s p s2 hrc) hs
      simp only [markPrecondLoop, hrc]
      exact ih (fun q hq => hl q (List.mem_cons_of_mem p hq)) s2 _ hs2

lemma mark_isSome (ctx : FFContext) (state : List FactPair)
    (hc : PrecondsClosed ctx) :
    ∀ fuel s g, g ∈ ctx.props → unmarkedCount ctx s < fuel →
      (mark_preferred_operators_and_relaxed_plan ctx state fuel s g).isSome
        = true := by
  intro fuel
  induction fuel with
  | zero =>
    intro s g _ h
    exact absurd h (Nat.not_lt_zero _)
  | succ fuel ih =>
    intro s g hg hcount
    rw [mark_preferred_operators_and_relaxed_plan]
    dsimp only
    by_cases hm : g ∈ s.marked
    · rw [if_pos (by simpa using hm)]
      rfl
    · rw [if_neg (by simpa using hm)]
      cases hrb : reachedByOf ctx g with
      | none => rfl
      | some op_id =>
        dsimp only
        have hs1 : unmarkedCount ctx { s with marked := g :: s.marked } < fuel := by
          have h1 := unmarkedCount_cons_lt ctx s g hg hm
          omega
        have hloopSome := markPrecondLoop_isSome ctx fuel
          (mark_preferred_operators_and_relaxed_plan ctx state fuel)
          (reachedByOf ctx)
          (fun s p s' hs => mark_unmarkedCount_le ctx state fuel s p s' hs)
          (fun s p hp hcnt => ih s p hp hcnt)
          (ctx.unary_operators.getD op_id defaultUnaryOperator).preconditions
          (getD_preconds_in_props ctx hc op_id)
          { s with marked := g :: s.marked } true hs1
        cases hloop : markPrecondLoop
            (mark_preferred_operators_and_relaxed_plan ctx state fuel)
            (reachedByOf ctx) { s with marked := g :: s.marked } true
            (ctx.unary_operators.getD op_id defaultUnaryOperator).preconditions with
        | none => rw [hloop] at hloopSome; cases hloopSome
        | some out =>
          obtain ⟨s2, is_pref⟩ := out
          dsimp only
          cases hop : (ctx.unary_operators.getD op_id defaultUnaryOperator).operator_no with
          | none => rfl
          | some op_no => rfl

lemma markGoals_isSome (ctx : FFContext) (state : List FactPair)
    (hc : PrecondsClosed ctx) :
    ∀ gs s, (∀ g ∈ gs, g ∈ ctx.props) →
      (markGoals ctx state s gs).isSome = true := by
  intro gs
  induction gs with
  | nil => intro s _; simp [markGoals]
  | cons g rest ih =>
    intro s hg
    have hcount : unmarkedCount ctx s < ctx.props.length + 1 :=
      Nat.lt_succ_of_le (List.length_filter_le _ _)
    have h1 := mark_isSome ctx state hc (ctx.props.length + 1) s g
      (hg g (List.mem_cons_self g rest)) hcount
    cases hmk : mark_preferred_operators_and_relaxed_plan ctx state
        (ctx.props.length + 1) s g with
    | none => rw [hmk] at h1; cases h1
    | some s2 =>
      simp only [markGoals, hmk]
      exact ih s2 (fun q hq => hg q (List.mem_cons_of_mem g hq))

lemma markPrecondLoop_pref_imp
    (recCall : MarkState → FactPair → Option MarkState)
    (rb : FactPair → Option Nat) :
    ∀ l s pref s' b, markPrecondLoop recCall rb s pref l = some (s', b) →
      b = true → pref = true ∧ ∀ p ∈ l, (rb p).isNone = true := by
  intro l
  induction l with
  | nil =>
    intro s pref s' b h hb
    simp only [markPrecondLoop, Option.some_inj, Prod.mk.injEq] at h
    refine ⟨h.2 ▸ hb, ?_⟩
    intro p hp
    cases hp
  | cons p rest ih =>
    intro s pref s' b h hb
    simp only [markPrecondLoop] at h
    cases hrc : recCall s p with
    | none => rw [hrc] at h; cases h
    | some s2 =>
      rw [hrc] at h
      obtain ⟨hand, hrest⟩ := ih s2 _ s' b h hb
      rw [Bool.and_eq_true] at hand
      refine ⟨hand.1, ?_⟩
      intro q hq
      rcases List.mem_cons.mp hq with h1 | h1
      · exact h1 ▸ hand.2
      · exact hrest q h1

lemma markPrecondLoop_preferredOK (ctx : FFContext) (state : List FactPair)
    (recCall : MarkState → FactPair → Option MarkState)
    (rb : FactPair → Option Nat)
    (hrec : ∀ s p s', p ∈ ctx.props → isReached ctx p →
      recCall s p = some s' → PreferredOK ctx state s →
      PreferredOK ctx state s') :
    ∀ l, (∀ p ∈ l, p ∈ ctx.props ∧ isReached ctx p) →
      ∀ s pref s' b, markPrecondLoop recCall rb s pref l = some (s', b) →
        PreferredOK ctx state s → PreferredOK ctx state s' := by
  intro l
  induction l with
  | nil =>
    intro _ s pref s' b h hok
    simp only [markPrecondLoop, Option.some_inj, Prod.mk.injEq] at h
    exact h.1 ▸ hok
  | cons p rest ih =>
    intro hl s pref s' b h hok
    simp only [markPrecondLoop] at h
    cases hrc : recCall s p with
    | none => rw [hrc] at h; cases h
    | some s2 =>
      rw [hrc] at h
      have hp := hl p (List.mem_cons_self p rest)
      have hok2 := hrec s p s2 hp.1 hp.2 hrc hok
      exact ih (fun q hq => hl q (List.mem_cons_of_mem p hq)) s2 _ s' b h hok2

lemma mark_preferredOK (ctx : FFContext) (state : List FactPair)
    (inv : EvalInvariants ctx state) :
    ∀ fuel s g s', g ∈ ctx.props → isReached ctx g →
      mark_preferred_operators_and_relaxed_plan ctx state fuel s g = some s' →
      PreferredOK ctx state s → PreferredOK ctx state s' := by
  intro fuel
  induction fuel with
  | zero =>
    intro s g s' _ _ h
    simp [mark_preferred_operators_and_relaxed_plan] at h
  | succ fuel ih =>
    intro s g s' hg hreach h hok
    rw [mark_preferred_operators_and_relaxed_plan] at h
    dsimp only at h
    split at h
    · cases h; exact hok
    · split at h
      · cases h; exact hok
      · rename_i op_id hrb
        obtain ⟨hlen, hpre⟩ := inv.reached_by_valid g hg hreach op_id
          (Option.mem_def.mpr hrb)
        have huo_mem : ctx.unary_operators.getD op_id defaultUnaryOperator
            ∈ ctx.unary_operators := getD_mem_of_lt _ _ _ hlen
        split at h
        · cases h
        · rename_i s2 is_pref hloop
          have hok1 : PreferredOK ctx state { s with marked := g :: s.marked } :=
            hok
          have hok2 : PreferredOK ctx state s2 :=
            markPrecondLoop_preferredOK ctx state _ _
              (fun s p s' hp hr hs hokk => ih s p s' hp hr hs hokk)
              _ (fun p hp => ⟨inv.preconds_in_props _ huo_mem p hp, hpre p hp⟩)
              _ _ _ _ hloop hok1
          split at h
          · cases h; exact hok2
          · rename_i op_no hop
            cases h
            by_cases hp : is_pref = true
            · subst hp
              simp only [if_pos rfl]
              intro i hi
              rcases List.mem_append.mp hi with h1 | h1
              · exact hok2 i h1
              · have hio : i = op_no := List.mem_singleton.mp h1
                subst hio
                intro f hf
                have hfuo : f ∈ (ctx.unary_operators.getD op_id
                    defaultUnaryOperator).preconditions :=
                  inv.compiled_preconds _ huo_mem i (Option.mem_def.mpr hop) f hf
                have hnone := (markPrecondLoop_pref_imp _ _ _ _ _ _ _
                  hloop rfl).2 f hfuo
                exact inv.reached_none_in_state f
                  (inv.preconds_in_props _ huo_mem f hfuo) (hpre f hfuo)
                  (Option.isNone_iff_eq_none.mp hnone)
            · rw [if_neg hp]
              exact hok2

lemma markGoals_preferredOK (ctx : FFContext) (state : List FactPair)
    (inv : EvalInvariants ctx state) :
    ∀ gs s s', (∀ g ∈ gs, g ∈ ctx.props ∧ isReached ctx g) →
      markGoals ctx state s gs = some s' →
      PreferredOK ctx state s → PreferredOK ctx state s' := by
  intro gs
  induction gs with
  | nil =>
    intro s s' _ h hok
    simp only [markGoals, Option.some_inj] at h
    exact h ▸ hok
  | cons g rest ih =>
    intro s s' hg h hok
    simp only [markGoals] at h
    cases hmk : mark_preferred_operators_and_relaxed_plan ctx state
        (ctx.props.length + 1) s g with
    | none => rw [hmk] at h; cases h
    | some s2 =>
      rw [hmk] at h
      have h1 := hg g (List.mem_cons_self g rest)
      have hok2 := mark_preferredOK ctx state inv _ s g s2 h1.1 h1.2 hmk hok
      exact ih s2 s' (fun q hq => hg q (List.mem_cons_of_mem g hq)) h hok2

lemma compute_heuristic_dead_end (h : FFHeuristic) (ctx : FFContext)
    (state : List FactPair) (s0 : MarkState)
    (ha : compute_add_and_ff ctx = none) :
    compute_heuristic h ctx state s0 = some (none, s0) := by
  simp only [compute_heuristic, ha]

lemma compute_heuristic_of_markGoals (h : FFHeuristic) (ctx : FFContext)
    (state : List FactPair) (s0 : MarkState) (a : Nat) (s : MarkState)
    (ha : compute_add_and_ff ctx = some a)
    (hm : markGoals ctx state s0 ctx.goal_propositions = some s) :
    compute_heuristic h ctx state s0 =
      some
        (some (if h.use_learned_weights
          then Int.ceil (relaxedPlanWeightSum h ctx s)
          else (relaxedPlanCostSum ctx s : Int)),
         { s with relaxed_plan := List.replicate s.relaxed_plan.length false }) := by
  simp only [compute_heuristic, ha, hm]

lemma compute_add_and_ff_eq_none_iff (ctx : FFContext) :
    compute_add_and_ff ctx = none ↔
      ∃ g ∈ ctx.goal_propositions, costOf ctx g = none := by
  by_cases hall : ∀ g ∈ ctx.goal_propositions, isReached ctx g
  · rw [compute_add_and_ff, if_pos hall]
    constructor
    · intro h; cases h
    · rintro ⟨g, hg, hnone⟩
      have := hall g hg
      rw [isReached, hnone] at this
      cases this
  · rw [compute_add_and_ff, if_neg hall]
    constructor
    · intro _
      push_neg at hall
      obtain ⟨g, hg, hr⟩ := hall
      refine ⟨g, hg, ?_⟩
      rw [isReached] at hr
      exact Option.not_isSome_iff_eq_none.mp (by simpa using hr)
    · intro _; rfl

lemma withCosts_getD_name (ctx : FFContext) (c : Nat → Nat) (i : Nat) :
    ((withCosts ctx c).operators.getD i defaultOperator).name =
      (ctx.operators.getD i defaultOperator).name := by
  by_cases hi : i < ctx.operators.length
  · have hlen : i < ((List.range ctx.operators.length).map fun i =>
        { ctx.operators.getD i defaultOperator with cost := c i }).length := by
      simpa using hi
    rw [withCosts]
    rw [List.getD_eq_getElem?_getD, List.getElem?_eq_getElem hlen]
    simp [List.getElem_map, List.getElem_range]
  · have hlen : ((List.range ctx.operators.length).map fun i =>
        { ctx.operators.getD i defaultOperator with cost := c i }).length ≤ i := by
      simpa using Nat.le_of_not_lt hi
    rw [withCosts]
    rw [List.getD_eq_getElem?_getD, List.getElem?_eq_none hlen,
      List.getD_eq_getElem?_getD, List.getElem?_eq_none (Nat.le_of_not_lt hi)]

lemma markPrecondLoop_congr
    (recCall recCall' : MarkState → FactPair → Option MarkState)
    (rb rb' : FactPair → Option Nat)
    (hrec : ∀ s p, recCall' s p = recCall s p)
    (hrb : ∀ p, rb' p = rb p) :
    ∀ l s pref, markPrecondLoop recCall' rb' s pref l =
      markPrecondLoop recCall rb s pref l := by
  intro l
  induction l with
  | nil => intro s pref; rfl
  | cons p rest ih =>
    intro s pref
    simp only [markPrecondLoop, hrec, hrb]
    cases recCall s p with
    | none => rfl
    | some s2 => exact ih s2 _

lemma mark_ctx_congr (ctx ctx' : FFContext) (state : List FactPair)
    (hu : ctx'.unary_operators = ctx.unary_operators)
    (hr : ctx'.reached_by = ctx.reached_by) :
    ∀ fuel s g,
      mark_preferred_operators_and_relaxed_plan ctx' state fuel s g =
        mark_preferred_operators_and_relaxed_plan ctx state fuel s g := by
  have hrbf : ∀ p, reachedByOf ctx' p = reachedByOf ctx p := by
    intro p; rw [reachedByOf, reachedByOf, hr]
  intro fuel
  induction fuel with
  | zero => intro s g; rfl
  | succ fuel ih =>
    intro s g
    rw [mark_preferred_operators_and_relaxed_plan,
      mark_preferred_operators_and_relaxed_plan]
    dsimp only
    by_cases hm : g ∈ s.marked
    · rw [if_pos (by simpa using hm), if_pos (by simpa using hm)]
    · rw [if_neg (by simpa using hm), if_neg (by simpa using hm)]
      rw [hrbf g]
      cases reachedByOf ctx g with
      | none => rfl
      | some op_id =>
        dsimp only
        rw [hu]
        rw [markPrecondLoop_congr
          (mark_preferred_operators_and_relaxed_plan ctx state fuel)
          (mark_preferred_operators_and_relaxed_plan ctx' state fuel)
          (reachedByOf ctx) (reachedByOf ctx')
          (fun s p => ih s p) hrbf]

lemma markGoals_ctx_congr (ctx ctx' : FFContext) (state : List FactPair)
    (hu : ctx'.unary_operators = ctx.unary_operators)
    (hr : ctx'.reached_by = ctx.reached_by)
    (hp : ctx'.props = ctx.props) :
    ∀ gs s, markGoals ctx' state s gs = markGoals ctx state s gs := by
  intro gs
  induction gs with
  | nil => intro s; rfl
  | cons g rest ih =>
    intro s
    rw [markGoals, markGoals, hp, mark_ctx_congr ctx ctx' state hu hr]
    cases mark_preferred_operators_and_relaxed_plan ctx state
        (ctx.props.length + 1) s g with
    | none => rfl
    | some s2 => exact ih s2

lemma length_filter_add_length_filter_not {α : Type} (l : List α)
    (p : α → Bool) :
    (l.filter p).length + (l.filter fun a => ! p a).length = l.length := by
  induction l with
  | nil => rfl
  | cons b t ih =>
    cases hb : p b <;> simp [List.filter_cons, hb] <;> omega

end MarkLemmas

section Claims

/-- Claim C1 (amended): for a non-goal landmark the causal-necessity test
runs the relaxed exploration with an EMPTY excluded-fact set (the
landmark's facts are not excluded) and with excluded actions exactly the
operators that have some landmark fact among their preconditions, and it
reports causal exactly when some goal fact remains unreachable under
these exclusions. -/
theorem C1_causal_test_amended (t : Task) (lm : Landmark)
    (hgoal : lm.is_true_in_goal = false) :
    (is_causal_landmark t lm = true ↔
      ∃ g ∈ t.goals, factLevel t [] (causalExcludeOpIds t lm) g = none)
    ∧ (∀ i : Nat, i ∈ causalExcludeOpIds t lm ↔ i < t.operators.length ∧
        ∃ p ∈ (t.operators.getD i defaultOperator).preconditions,
          p ∈ lm.facts) := by
  constructor
  · rw [is_causal_landmark, if_neg (by simp [hgoal])]
    simp only [List.any_eq_true, Option.isNone_iff_eq_none]
  · intro i
    rw [causalExcludeOpIds, List.mem_filter, List.mem_range]
    rw [is_landmark_precondition]
    simp

/-- Witness for C1: on the example task the embedded test reports the
non-goal landmark F non-causal, because no operator is preconditioned on
F and the goal stays reachable with the empty excluded-fact set. -/
theorem C1_causal_test_amended_witness :
    is_causal_landmark exTask exLandmark = false := by
  have h := (C1_causal_test_amended exTask exLandmark rfl).1
  have hno : ¬ ∃ g ∈ exTask.goals,
      factLevel exTask [] (causalExcludeOpIds exTask exLandmark) g = none := by
    decide
  cases hb : is_causal_landmark exTask exLandmark
  · rfl
  · exact absurd (h.mp hb) hno

/-- Counterexample for C1: on the example task (the landmark fact F feeds
an axiom that derives the goal) the code reports F non-causal, while the
claim's test — which additionally excludes the landmark's own facts —
would report it causal; the two exclusion semantics differ. -/
theorem C1_counterexample :
    is_causal_landmark exTask exLandmark = false ∧
      is_causal_landmark_claimed exTask exLandmark = true := by
  decide

/-- Claim C4: the solvability / achiever test excludes the landmark's
facts and exactly the operators with an unconditional effect achieving
some landmark fact (conditional achievers are not excluded), and it
returns true exactly when every goal fact has a finite level under these
exclusions. -/
theorem C4_solvability_test (t : Task) (lm : Landmark) :
    (relaxed_task_solvable t lm = true ↔
      ∀ g ∈ t.goals,
        (factLevel t lm.facts (solvableExcludeOpIds t lm) g).isSome = true)
    ∧ (∀ i : Nat, i ∈ solvableExcludeOpIds t lm ↔ i < t.operators.length ∧
        ∃ e ∈ (t.operators.getD i defaultOperator).effects,
          e.fact ∈ lm.facts ∧ e.conditions = []) := by
  constructor
  · rw [relaxed_task_solvable]
    simp only [List.all_eq_true]
  · intro i
    rw [solvableExcludeOpIds, List.mem_filter, List.mem_range]
    rw [achieves_non_conditional]
    simp only [List.any_eq_true, Bool.and_eq_true, decide_eq_true_eq,
      List.isEmpty_iff]
    constructor
    · rintro ⟨hi, e, he, f, hf, heq, hnil⟩
      exact ⟨hi, e, he, heq ▸ hf, hnil⟩
    · rintro ⟨hi, e, he, hf, hnil⟩
      exact ⟨hi, e, he, e.fact, hf, rfl, hnil⟩

/-- Claim C7: a landmark true in the goal is classified causal for every
task (the exploration is never consulted), and discard_noncausal_landmarks
keeps exactly the causal nodes, drops every edge incident to a removed
node, and reports the number of discarded landmarks. -/
theorem C7_goal_causal_and_discard (t : Task) (g : LandmarkGraph) :
    (∀ lm : Landmark, lm.is_true_in_goal = true →
      ∀ t2 : Task, is_causal_landmark t2 lm = true)
    ∧ (discard_noncausal_landmarks t g).1.nodes =
        g.nodes.filter (fun n => is_causal_landmark t n.landmark)
    ∧ (∀ e, e ∈ (discard_noncausal_landmarks t g).1.edges ↔
        e ∈ g.edges ∧
        (∃ m ∈ g.nodes, is_causal_landmark t m.landmark = true ∧ m.id = e.1) ∧
        (∃ m ∈ g.nodes, is_causal_landmark t m.landmark = true ∧ m.id = e.2))
    ∧ (discard_noncausal_landmarks t g).2 =
        (g.nodes.filter fun n => ! is_causal_landmark t n.landmark).length := by
  have hkept : g.nodes.filter (fun n => ! ! is_causal_landmark t n.landmark) =
      g.nodes.filter (fun n => is_causal_landmark t n.landmark) :=
    List.filter_congr (fun a _ => by rw [Bool.not_not])
  refine ⟨?_, ?_, ?_, ?_⟩
  · intro lm hlm t2
    rw [is_causal_landmark, if_pos (by simp [hlm])]
  · show (remove_node_if g _).nodes = _
    rw [remove_node_if]
    exact hkept
  · intro e
    show e ∈ (remove_node_if g _).edges ↔ _
    rw [remove_node_if]
    dsimp only
    rw [List.mem_filter]
    simp only [decide_eq_true_eq, List.mem_filter, Bool.not_not]
    constructor
    · rintro ⟨he, ⟨m1, hm1, h1⟩, m2, hm2, h2⟩
      exact ⟨he, ⟨m1, hm1.1, hm1.2, h1⟩, ⟨m2, hm2.1, hm2.2, h2⟩⟩
    · rintro ⟨he, ⟨m1, hm1, hc1, h1⟩, m2, hm2, hc2, h2⟩
      exact ⟨he, ⟨m1, ⟨hm1, hc1⟩, h1⟩, ⟨m2, ⟨hm2, hc2⟩, h2⟩⟩
  · show g.nodes.length - (remove_node_if g _).nodes.length = _
    rw [remove_node_if]
    dsimp only
    rw [hkept]
    have hsum := length_filter_add_length_filter_not g.nodes
      (fun n => is_causal_landmark t n.landmark)
    omega

/-- Witness for C7: on the example graph the non-causal landmark node is
discarded together with its edge, one landmark is reported discarded, and
the goal landmark is causal on every task. -/
theorem C7_goal_causal_and_discard_witness :
    is_causal_landmark exTask exGoalLandmark = true ∧
      (discard_noncausal_landmarks exTask exGraph).1.nodes =
        [⟨0, exGoalLandmark⟩] ∧
      ¬ ((1, 0) ∈ (discard_noncausal_landmarks exTask exGraph).1.edges) ∧
      (discard_noncausal_landmarks exTask exGraph).2 = 1 := by
  refine ⟨(C7_goal_causal_and_discard exTask exGraph).1 exGoalLandmark rfl exTask,
    ?_, ?_, ?_⟩
  · rw [(C7_goal_causal_and_discard exTask exGraph).2.1]; decide
  · rw [(C7_goal_causal_and_discard exTask exGraph).2.2.1 (1, 0)]; decide
  · rw [(C7_goal_causal_and_discard exTask exGraph).2.2.2]; decide

/-- Claim C10: the causal test's excluded-action set contains only real
operator ids, so axiom rules (owner-less unary rules) are never excluded
from the causal exploration, even when the axiom body mentions a landmark
fact; every axiom contributes such a rule to the compiled rule set. -/
theorem C10_axioms_never_excluded (t : Task) (lm : Landmark) :
    (∀ r ∈ taskRules t, r.owner = none →
      ruleExcluded (causalExcludeOpIds t lm) r = false)
    ∧ (∀ i ∈ causalExcludeOpIds t lm, i < t.operators.length)
    ∧ (∀ a ∈ t.axioms, (⟨none, a.conditions, a.fact⟩ : Rule) ∈ taskRules t) := by
  refine ⟨?_, ?_, ?_⟩
  · intro r _ hown
    rw [ruleExcluded, hown]
  · intro i hi
    exact List.mem_range.mp (List.mem_filter.mp hi).1
  · intro a ha
    rw [taskRules]
    exact List.mem_append_right _ (List.mem_map.mpr ⟨a, ha, rfl⟩)

/-- Witness for C10: the axiom rule of the example task (whose body is
exactly the landmark fact F) is in the compiled rule set and is not
excluded by the causal test for F. -/
theorem C10_axioms_never_excluded_witness :
    (⟨none, [⟨0, 1⟩], ⟨1, 1⟩⟩ : Rule) ∈ taskRules exTask ∧
      ruleExcluded (causalExcludeOpIds exTask exLandmark)
        ⟨none, [⟨0, 1⟩], ⟨1, 1⟩⟩ = false :=
  ⟨(C10_axioms_never_excluded exTask exLandmark).2.2 ⟨[⟨0, 1⟩], ⟨1, 1⟩⟩
      (by decide),
   (C10_axioms_never_excluded exTask exLandmark).1 ⟨none, [⟨0, 1⟩], ⟨1, 1⟩⟩
      ((C10_axioms_never_excluded exTask exLandmark).2.2 ⟨[⟨0, 1⟩], ⟨1, 1⟩⟩
        (by decide)) rfl⟩

/-- Claim C8: the backward chaining terminates for every input, cycles in
the first-achiever links included: whenever the fuel bound exceeds the
number of unmarked propositions the chaining completes, because every
visited proposition is marked on first visit and a marked proposition is
never reprocessed. -/
theorem C8_backward_chaining_terminates (ctx : FFContext)
    (state : List FactPair) (hc : PrecondsClosed ctx)
    (s : MarkState) (g : FactPair) (hg : g ∈ ctx.props) :
    (mark_preferred_operators_and_relaxed_plan ctx state
      (ctx.props.length + 1) s g).isSome = true
    ∧ ∀ fuel, unmarkedCount ctx s < fuel →
      (mark_preferred_operators_and_relaxed_plan ctx state fuel s g).isSome
        = true := by
  constructor
  · exact mark_isSome ctx state hc _ s g hg
      (Nat.lt_succ_of_le (List.length_filter_le _ _))
  · intro fuel hf
    exact mark_isSome ctx state hc fuel s g hg hf

/-- Witness for C8: on the context whose first-achiever links form the
cycle (0,0) -> (0,1) -> (0,0), the chaining still completes. -/
theorem C8_backward_chaining_terminates_witness :
    (mark_preferred_operators_and_relaxed_plan exCtxCycle [] 3
      ⟨[], [], []⟩ ⟨0, 0⟩).isSome = true :=
  (C8_backward_chaining_terminates exCtxCycle [] (by decide) ⟨[], [], []⟩
    ⟨0, 0⟩ (by decide)).1

/-- Claim C9: when the relaxed-plan membership array is all-false at entry
(the invariant maintained since construction), it is all-false again after
every return of compute_heuristic, the dead-end early return included, so
no relaxed-plan state leaks into the next evaluation. -/
theorem C9_relaxed_plan_reset (h : FFHeuristic) (ctx : FFContext)
    (state : List FactPair) (s0 : MarkState) (r : Option Int) (s' : MarkState)
    (h0 : ∀ b ∈ s0.relaxed_plan, b = false)
    (hres : compute_heuristic h ctx state s0 = some (r, s')) :
    ∀ b ∈ s'.relaxed_plan, b = false := by
  cases ha : compute_add_and_ff ctx with
  | none =>
    rw [compute_heuristic_dead_end h ctx state s0 ha] at hres
    simp only [Option.some_inj, Prod.mk.injEq] at hres
    rw [← hres.2]
    exact h0
  | some a =>
    cases hm : markGoals ctx state s0 ctx.goal_propositions with
    | none =>
      rw [compute_heuristic, ha] at hres
      dsimp only at hres
      rw [hm] at hres
      cases hres
    | some s =>
      rw [compute_heuristic_of_markGoals h ctx state s0 a s ha hm] at hres
      simp only [Option.some_inj, Prod.mk.injEq] at hres
      intro b hb
      rw [← hres.2] at hb
      exact List.eq_of_mem_replicate hb

/-- Witness for C9: a full evaluation on the example context returns with
the relaxed-plan array cleared back to all-false. -/
theorem C9_relaxed_plan_reset_witness :
    (⟨[⟨1, 1⟩, ⟨0, 1⟩], [false, false], [0, 1]⟩ : MarkState).relaxed_plan.all
      (fun b => b == false) = true :=
  List.all_eq_true.mpr fun b hb => by
    rw [C9_relaxed_plan_reset ⟨false, []⟩ exCtx [] exState0 (some 2)
      ⟨[⟨1, 1⟩, ⟨0, 1⟩], [false, false], [0, 1]⟩ (by decide) (by decide) b hb]
    rfl

/-- Claim C5: the heuristic returns the dead-end sentinel exactly when
some goal proposition is unreachable in the exclusion-free relaxed
exploration whose output the context carries, and when every goal
proposition is reachable it returns a finite (non-sentinel) estimate. -/
theorem C5_dead_end_iff (h : FFHeuristic) (ctx : FFContext)
    (state : List FactPair) (s0 : MarkState)
    (hg : ∀ g ∈ ctx.goal_propositions, g ∈ ctx.props)
    (hc : PrecondsClosed ctx) :
    (compute_heuristic h ctx state s0 = some (none, s0) ↔
      ∃ g ∈ ctx.goal_propositions, costOf ctx g = none)
    ∧ ((∀ g ∈ ctx.goal_propositions, isReached ctx g) →
      ∃ v : Int, ∃ s' : MarkState,
        compute_heuristic h ctx state s0 = some (some v, s')) := by
  constructor
  · rw [← compute_add_and_ff_eq_none_iff]
    constructor
    · intro hres
      cases ha : compute_add_and_ff ctx with
      | none => rfl
      | some a =>
        have hms := markGoals_isSome ctx state hc ctx.goal_propositions s0 hg
        cases hm : markGoals ctx state s0 ctx.goal_propositions with
        | none => rw [hm] at hms; cases hms
        | some s =>
          rw [compute_heuristic_of_markGoals h ctx state s0 a s ha hm] at hres
          simp at hres
    · intro ha
      exact compute_heuristic_dead_end h ctx state s0 ha
  · intro hall
    have ha : compute_add_and_ff ctx =
        some (ctx.goal_propositions.map fun g => (costOf ctx g).getD 0).sum := by
      rw [compute_add_and_ff, if_pos hall]
    have hms := markGoals_isSome ctx state hc ctx.goal_propositions s0 hg
    cases hm : markGoals ctx state s0 ctx.goal_propositions with
    | none => rw [hm] at hms; cases hms
    | some s =>
      exact ⟨_, _, compute_heuristic_of_markGoals h ctx state s0 _ s ha hm⟩

/-- Witness for C5: on the context with an unreachable goal proposition
the heuristic returns the dead-end sentinel. -/
theorem C5_dead_end_iff_witness :
    compute_heuristic ⟨false, []⟩ exCtxDead [] ⟨[], [], []⟩ =
      some (none, ⟨[], [], []⟩) :=
  (C5_dead_end_iff ⟨false, []⟩ exCtxDead [] ⟨[], [], []⟩ (by decide)
    (by decide)).1.mpr (by decide)

/-- Claim C6: under the exploration-output and compilation invariants,
every operator recorded preferred by an evaluation is applicable in the
evaluated literal state, so the in-code applicability assertion never
fails: an operator is preferred only when each precondition of its unary
rule carries the cost-0 no-achiever link and is therefore true in the
state. -/
theorem C6_preferred_applicable (h : FFHeuristic) (ctx : FFContext)
    (state : List FactPair) (s0 : MarkState) (r : Option Int) (s' : MarkState)
    (inv : EvalInvariants ctx state)
    (h0 : s0.preferred = [])
    (hres : compute_heuristic h ctx state s0 = some (r, s')) :
    ∀ i ∈ s'.preferred,
      opApplicable (ctx.operators.getD i defaultOperator) state := by
  cases ha : compute_add_and_ff ctx with
  | none =>
    rw [compute_heuristic_dead_end h ctx state s0 ha] at hres
    simp only [Option.some_inj, Prod.mk.injEq] at hres
    rw [← hres.2, h0]
    intro i hi
    cases hi
  | some a =>
    have hall : ∀ g ∈ ctx.goal_propositions, isReached ctx g := by
      by_contra hne
      rw [compute_add_and_ff, if_neg hne] at ha
      cases ha
    cases hm : markGoals ctx state s0 ctx.goal_propositions with
    | none =>
      rw [compute_heuristic, ha] at hres
      dsimp only at hres
      rw [hm] at hres
      cases hres
    | some s =>
      rw [compute_heuristic_of_markGoals h ctx state s0 a s ha hm] at hres
      simp only [Option.some_inj, Prod.mk.injEq] at hres
      have hOK : PreferredOK ctx state s :=
        markGoals_preferredOK ctx state inv ctx.goal_propositions s0 s
          (fun g hgg => ⟨inv.goals_in_props g hgg, hall g hgg⟩) hm
          (by rw [PreferredOK, h0]; intro i hi; cases hi)
      intro i hi
      rw [← hres.2] at hi
      exact hOK i hi

/-- Witness for C6: on the context whose goal is reached by the operator
with precondition (0,0), the operator is recorded preferred and is indeed
applicable in the evaluated state containing (0,0). -/
theorem C6_preferred_applicable_witness :
    opApplicable (exCtxPre.operators.getD 0 defaultOperator) [⟨0, 0⟩] :=
  C6_preferred_applicable ⟨false, []⟩ exCtxPre [⟨0, 0⟩] exState0Pre (some 1)
    ⟨[⟨0, 0⟩, ⟨0, 1⟩], [false], [0]⟩
    ⟨by decide, by decide, by decide, by decide, by decide⟩ rfl (by decide)
    0 (by decide)

/-- Claim C3: in learned-weight mode the returned estimate equals the
ceiling of the sum, over the distinct operators of the relaxed plan, of
the weight of the operator's family key (its name up to the first space),
and the structural cost sum is not consulted: replacing every operator
cost arbitrarily leaves the result unchanged. -/
theorem C3_weighted_estimate (h : FFHeuristic) (ctx : FFContext)
    (state : List FactPair) (s0 : MarkState) (a : Nat) (s : MarkState)
    (hw : h.use_learned_weights = true)
    (ha : compute_add_and_ff ctx = some a)
    (hm : markGoals ctx state s0 ctx.goal_propositions = some s) :
    compute_heuristic h ctx state s0 =
      some (some (Int.ceil (((collectedPlan s).map fun op_no =>
          opWeightLookup h.op_weights
            (opFamilyKey (ctx.operators.getD op_no defaultOperator).name)).sum)),
        { s with relaxed_plan := List.replicate s.relaxed_plan.length false })
    ∧ (collectedPlan s).Nodup
    ∧ (∀ c : Nat → Nat,
        compute_heuristic h (withCosts ctx c) state s0 =
          compute_heuristic h ctx state s0) := by
  refine ⟨?_, ?_, ?_⟩
  · rw [compute_heuristic_of_markGoals h ctx state s0 a s ha hm]
    rw [hw, if_pos rfl, relaxedPlanWeightSum]
  · exact (List.nodup_range _).filter _
  · intro c
    have hm' : markGoals (withCosts ctx c) state s0
        (withCosts ctx c).goal_propositions = some s := by
      rw [markGoals_ctx_congr ctx (withCosts ctx c) state rfl rfl rfl]
      exact hm
    rw [compute_heuristic_of_markGoals h (withCosts ctx c) state s0 a s ha hm',
      compute_heuristic_of_markGoals h ctx state s0 a s ha hm]
    rw [hw, if_pos rfl, if_pos rfl]
    have hws : relaxedPlanWeightSum h (withCosts ctx c) s =
        relaxedPlanWeightSum h ctx s := by
      rw [relaxedPlanWeightSum, relaxedPlanWeightSum]
      congr 1
      refine List.map_congr_left ?_
      intro i _
      rw [withCosts_getD_name]
    rw [hws]

/-- Witness for C3: two families pick-up (weight 1.5) and put-down
(weight 2.25), each used once in the relaxed plan, give the estimate
ceiling(1.5 + 2.25) = 4. -/
theorem C3_weighted_estimate_witness :
    compute_heuristic exWeights exCtx [] exState0 =
      some (some 4, ⟨[⟨1, 1⟩, ⟨0, 1⟩], [false, false], [0, 1]⟩) := by
  have h := (C3_weighted_estimate exWeights exCtx [] exState0 2
    ⟨[⟨1, 1⟩, ⟨0, 1⟩], [true, true], [0, 1]⟩ rfl (by decide) (by decide)).1
  rw [h]
  have hlist : ((collectedPlan ⟨[⟨1, 1⟩, ⟨0, 1⟩], [true, true], [0, 1]⟩).map
      fun op_no => opWeightLookup exWeights.op_weights
        (opFamilyKey (exCtx.operators.getD op_no defaultOperator).name)) =
      [3 / 2, 9 / 4] := by rfl
  rw [hlist]
  have hceil : Int.ceil (([3 / 2, 9 / 4] : List ℚ)).sum = 4 := by
    rw [Int.ceil_eq_iff]
    norm_num
  rw [hceil]
  rfl

/-- Claim C2 (code bug): at the failing input the family "drive" occurs in
the relaxed plan but has no entry in the weight table; the map subscript
operator default-inserts weight 0.0, so the evaluation succeeds with
estimate 0 instead of failing fast, silently ignoring the operator (whose
structural cost is 3). -/
theorem C2_missing_weight_silently_zero :
    opWeightLookup exWeightsNoDrive.op_weights
      (opFamilyKey ((exCtxDrive.operators.getD 0 defaultOperator).name)) = 0
    ∧ compute_heuristic exWeightsNoDrive exCtxDrive [] exState0Drive =
        some (some 0, ⟨[⟨0, 1⟩], [false], [0]⟩)
    ∧ relaxedPlanCostSum exCtxDrive ⟨[⟨0, 1⟩], [true], [0]⟩ = 3 := by
  refine ⟨by rfl, ?_, by decide⟩
  rw [compute_heuristic_of_markGoals exWeightsNoDrive exCtxDrive []
    exState0Drive 1 ⟨[⟨0, 1⟩], [true], [0]⟩ (by decide) (by decide)]
  rw [if_pos (show exWeightsNoDrive.use_learned_weights = true from rfl)]
  have hlist : ((collectedPlan ⟨[⟨0, 1⟩], [true], [0]⟩).map
      fun op_no => opWeightLookup exWeightsNoDrive.op_weights
        (opFamilyKey (exCtxDrive.operators.getD op_no defaultOperator).name)) =
      [0] := by rfl
  rw [relaxedPlanWeightSum, hlist]
  have hceil : Int.ceil (([0] : List ℚ)).sum = 0 := by
    rw [Int.ceil_eq_iff]
    norm_num
  rw [hceil]
  rfl

end Claims

end Downward
